import Mathlib

/-!
# Verification of the admin-dashboard review/product/learning-card logic

Shallow embedding of the data-access and reconciliation code of the
`admin_bay` repository:

* `handleDeleteReview` and `handleBulkDelete`
  (`src/app/components/AdminDashboardClient.tsx`,
   `src/app/components/AdminReviewsTable.tsx`);
* the repository operations `updateProduct`, `updateReview`,
  `updateLearningCard`, `deleteLearningCard`, `cleanupSavedCards`,
  `getReviews` (`src/app/lib/firebase/database.ts`);
* the blob-store helper `deleteImage` (`src/app/lib/storage.ts`).

JavaScript numbers are modelled as exact rationals (`ℚ`); every concrete
input used in a counterexample below is chosen so that the corresponding
IEEE-754 double computation is exact, keeping the rational idealization
faithful at that input.  `Number.prototype.toFixed` first strips the sign
(ECMA-262: "If x < 0, set s to the minus sign and x to −x") and only then
picks the nearest multiple of `10^-digits`, resolving exact ties by
picking the larger value — so on the signed number, exact ties round
**away from zero** for both signs; `roundTenths` below is that rule for
one digit.
-/

namespace AdminBay

/-- `parseFloat(x.toFixed(1))` on an exact rational.  ECMA-262 `toFixed`
strips the sign first and then rounds the absolute value to the nearest
tenth, exact ties to the larger candidate; re-attaching the sign, exact
ties on the signed number round away from zero (`(-0.75).toFixed(1)` is
`"-0.8"`). -/
def roundTenths (q : ℚ) : ℚ :=
  if 0 ≤ q then (⌊q * 10 + 1/2⌋ : ℚ) / 10
  else -((⌊(-q) * 10 + 1/2⌋ : ℚ) / 10)

/-- The rounding rule as the specification words it
(`round-half-away-from-zero` to one decimal digit).  This definition
follows the spec's words independently of the code; `roundTenths_eq_spec`
below proves it coincides with the code's `roundTenths`. -/
def specRoundHalfAwayTenths (q : ℚ) : ℚ :=
  if 0 ≤ q then (⌊q * 10 + 1/2⌋ : ℚ) / 10
  else -((⌊(-q) * 10 + 1/2⌋ : ℚ) / 10)

/-! ## Dashboard model (`AdminDashboardClient.tsx`)

Only the fields that `handleDeleteReview` reads or writes are modelled.
`Product.itemId` is optional in the TypeScript type (`itemId?: string`). -/

structure Product where
  id : String
  itemId : Option String
  rating : ℚ
  review_count : ℤ
  updatedAt : ℤ
  deriving Repr, DecidableEq

structure Review where
  id : String
  itemId : String
  rating : ℚ
  deriving Repr, DecidableEq

/-- The state `handleDeleteReview` operates on: the loaded `products` and
`reviews` arrays (which mirror the database collections). -/
structure DashState where
  products : List Product
  reviews : List Review
  deriving Repr, DecidableEq

/-- The two `throw new Error(...)` paths of `handleDeleteReview`. -/
inductive DelErr where
  | reviewNotFound
  | productNotFound
  deriving Repr, DecidableEq

/-- `products.find(p => p.itemId === review.itemId || p.id === review.itemId)`:
the dual-key owner lookup. -/
def findOwner (products : List Product) (itemId : String) : Option Product :=
  products.find? (fun p => p.itemId == some itemId || p.id == itemId)

/-- One run of `handleDeleteReview(id)`.  The code throws before issuing any
write on both error paths, so an `Except.error` result carries no new state.
On success the review is deleted (`setReviews` filter / `deleteReview`) and
the owning product's `review_count`, `rating` and `updatedAt` are written
back (`updateProduct` / `setProducts` map). -/
def deleteReviewStep (now : ℤ) (st : DashState) (rid : String) :
    Except DelErr DashState :=
  match st.reviews.find? (fun r => r.id == rid) with
  | none => .error .reviewNotFound
  | some reviewToDelete =>
    match findOwner st.products reviewToDelete.itemId with
    | none => .error .productNotFound
    | some product =>
      let newReviewCount : ℤ := max 0 (product.review_count - 1)
      let newRating : ℚ :=
        if 0 < newReviewCount then
          roundTenths ((product.rating * (product.review_count : ℚ) -
            reviewToDelete.rating) / (newReviewCount : ℚ))
        else 0
      .ok
        { products := st.products.map (fun p =>
            if p.id == product.id then
              { p with review_count := newReviewCount, rating := newRating,
                       updatedAt := now }
            else p),
          reviews := st.reviews.filter (fun r => !(r.id == rid)) }

/-- Sequential single-review deletions: `deleteReviewStep` folded over a
list of review ids, aborting at the first error. -/
def deleteMany (now : ℤ) (st : DashState) (ids : List String) :
    Except DelErr DashState :=
  ids.foldlM (deleteReviewStep now) st

/-- The product update one concurrent `onDelete(id)` of `handleBulkDelete`
computes.  All the reads (`reviews.find`, `products.find`,
`product.review_count`, `product.rating`) go through the closure captured at
the moment `Promise.all` is issued, i.e. the *pre-bulk* state `st`. -/
def staleUpdateFor (st : DashState) (rid : String) :
    Option (String × ℤ × ℚ) :=
  match st.reviews.find? (fun r => r.id == rid) with
  | none => none
  | some reviewToDelete =>
    match findOwner st.products reviewToDelete.itemId with
    | none => none
    | some product =>
      let newReviewCount : ℤ := max 0 (product.review_count - 1)
      let newRating : ℚ :=
        if 0 < newReviewCount then
          roundTenths ((product.rating * (product.review_count : ℚ) -
            reviewToDelete.rating) / (newReviewCount : ℚ))
        else 0
      some (product.id, newReviewCount, newRating)

/-- `handleBulkDelete`: `Promise.all(selectedReviews.map(id => onDelete(id)))`.
Every deletion computes its product write from the same stale snapshot `st`;
the review deletions all land, and the stale product writes land one after
another (here: in list order — for the fields every write computes from the
same snapshot, so the final `review_count` does not depend on the order). -/
def bulkDeleteStale (now : ℤ) (st : DashState) (ids : List String) :
    DashState :=
  let deleted := ids.filter (fun i => (staleUpdateFor st i).isSome)
  let upds := ids.filterMap (staleUpdateFor st)
  { products := upds.foldl (fun ps u =>
      ps.map (fun p =>
        if p.id == u.1 then
          { p with review_count := u.2.1, rating := u.2.2, updatedAt := now }
        else p)) st.products,
    reviews := st.reviews.filter (fun r => !(deleted.contains r.id)) }

/-- Sum of the ratings of a review list (used to state the aggregate
invariant: the true mean of the remaining reviews). -/
def sumRatings (rs : List Review) : ℚ := (rs.map Review.rating).sum

/-- A concrete 17-review set for product `"p1"`: eight 5-star and nine
4-star reviews, summing to 76; `mean = 76/17 ≈ 4.471`, which rounds to
`4.5` — a value whose IEEE-754 double representation is exact, so the
rational model tracks the JavaScript computation exactly on this data. -/
def rs17 : List Review :=
  [⟨"a1", "p1", 5⟩, ⟨"a2", "p1", 5⟩, ⟨"a3", "p1", 5⟩, ⟨"a4", "p1", 5⟩,
   ⟨"a5", "p1", 5⟩, ⟨"a6", "p1", 5⟩, ⟨"a7", "p1", 5⟩, ⟨"a8", "p1", 5⟩,
   ⟨"b1", "p1", 4⟩, ⟨"b2", "p1", 4⟩, ⟨"b3", "p1", 4⟩, ⟨"b4", "p1", 4⟩,
   ⟨"b5", "p1", 4⟩, ⟨"b6", "p1", 4⟩, ⟨"b7", "p1", 4⟩, ⟨"b8", "p1", 4⟩,
   ⟨"b9", "p1", 4⟩]

/-! ## Repository model (`database.ts`: the three `update*` operations)

The stored records are modelled as JSON-like objects: association lists
from field names to values.  `mergeObj o₁ o₂` is the JavaScript spread
`{...o₁, ...o₂}` (fields of `o₂` win) and also Firebase RTDB's shallow
`update(ref, o₂)` applied to a node holding `o₁`. -/

inductive Val where
  | str (s : String)
  | num (q : ℚ)
  | boolean (b : Bool)
  deriving Repr, DecidableEq

/-- A stored record: field name ↦ value. -/
abbrev Obj := List (String × Val)

/-- `{...o₁, ...o₂}`: every field of `o₂`, plus the fields of `o₁` that
`o₂` does not mention. -/
def mergeObj (o₁ o₂ : Obj) : Obj :=
  o₁.filter (fun kv => (o₂.find? (fun kv₂ => kv₂.1 == kv.1)).isNone) ++ o₂

/-- A collection (`shoppingItems`, `reviews`, `learning_hub/cards`):
storage key ↦ record. -/
abbrev Db := List (String × Obj)

/-- `get(ref(db, path))` followed by `snapshot.exists()` / `snapshot.val()`. -/
def dbGet (db : Db) (id : String) : Option Obj :=
  (db.find? (fun kv => kv.1 == id)).map (fun kv => kv.2)

/-- Writing the node at `id` (creating it when absent, as Firebase's
path-level `update` does). -/
def dbSet (db : Db) (id : String) (v : Obj) : Db :=
  if (db.find? (fun kv => kv.1 == id)).isSome then
    db.map (fun kv => if kv.1 == id then (id, v) else kv)
  else db ++ [(id, v)]

inductive RepoErr where
  | notFound
  deriving Repr, DecidableEq

/-- `updateProduct(id, data)`: reads the node, **throws if it does not
exist**, then writes `{...currentData, ...data, updatedAt: Date.now()}`. -/
def updateProduct (db : Db) (id : String) (data : Obj) (now : ℤ) :
    Except RepoErr Db :=
  match dbGet db id with
  | none => .error .notFound
  | some currentData =>
    .ok (dbSet db id
      (mergeObj (mergeObj currentData data) [("updatedAt", Val.num now)]))

/-- `updateReview(id, data)`: **no existence check** — it directly issues
`update(reviewRef, {...data, updatedAt: Date.now()})`, which shallow-merges
into the node at `reviews/id`, creating the node when it is absent. -/
def updateReview (db : Db) (id : String) (data : Obj) (now : ℤ) : Db :=
  dbSet db id
    (mergeObj ((dbGet db id).getD [])
      (mergeObj data [("updatedAt", Val.num now)]))

/-- `updateLearningCard(uuid, data)`: reads the node, **throws if it does
not exist**, then issues `update(cardRef, {...currentData, ...data})`
(no `updatedAt` stamp for cards). -/
def updateLearningCard (db : Db) (uuid : String) (data : Obj) :
    Except RepoErr Db :=
  match dbGet db uuid with
  | none => .error .notFound
  | some currentData => .ok (dbSet db uuid (mergeObj currentData data))

/-! ## Learning-hub deletion and bookmark fan-out (`database.ts`) -/

/-- The learning-hub slice of the store: `learning_hub/cards` and the
side table `learning_hub/user_saved_cards/{userId}/{uuid} → bool`. -/
structure HubState where
  cards : Db
  saved : List (String × List (String × Bool))
  deriving Repr, DecidableEq

/-- The truthiness test `savedData[userId] && savedData[userId][uuid]`:
the user's entry object exists and its value at key `uuid` is `true`. -/
def hasBookmark (entries : List (String × Bool)) (uuid : String) : Bool :=
  match entries.find? (fun e => e.1 == uuid) with
  | some e => e.2
  | none => false

/-- The multi-path `updates` object built by `cleanupSavedCards`: one
`user_saved_cards/{userId}/{uuid} = null` removal per user whose entry for
`uuid` is truthy. -/
def buildCleanupUpdates (saved : List (String × List (String × Bool)))
    (uuid : String) : List (String × String) :=
  saved.filterMap (fun ue =>
    if hasBookmark ue.2 uuid then some (ue.1, uuid) else none)

/-- Applying one batched multi-path update whose entries are all
`user_saved_cards/{userId}/{uuid} = null`: each listed child is removed. -/
def applyRemovals (saved : List (String × List (String × Bool)))
    (upds : List (String × String)) :
    List (String × List (String × Bool)) :=
  saved.map (fun ue => (ue.1, ue.2.filter (fun e => !(upds.contains (ue.1, e.1)))))

/-- `cleanupSavedCards(uuid)`: scan every user key, collect the truthy
entries for `uuid` into a single `updates` object, and issue one
`update(ref(db), updates)` (no call at all when the object is empty —
`applyRemovals` with an empty batch is the identity). -/
def cleanupSavedCards (saved : List (String × List (String × Bool)))
    (uuid : String) : List (String × List (String × Bool)) :=
  applyRemovals saved (buildCleanupUpdates saved uuid)

/-- `deleteLearningCard(uuid)`: first `remove(cards/{uuid})`, then the
bookmark fan-out `cleanupSavedCards(uuid)`. -/
def deleteLearningCard (st : HubState) (uuid : String) : HubState :=
  { cards := st.cards.filter (fun c => !(c.1 == uuid)),
    saved := cleanupSavedCards st.saved uuid }

/-! ## `getReviews` (`database.ts`) -/

/-- A review record as stored under `reviews/{key}`.  The stored value may
itself contain `id` / `reviewId` fields (reviews are created by end-user
flows outside this repository); `createdAt` may be absent. -/
structure StoredReview where
  storedId : Option String
  storedReviewId : Option String
  itemId : String
  rating : ℚ
  createdAt : Option ℤ
  deriving Repr, DecidableEq

/-- An element of the array `getReviews` returns. -/
structure ListedReview where
  id : String
  reviewId : String
  itemId : String
  rating : ℚ
  createdAt : Option ℤ
  deriving Repr, DecidableEq

/-- `{ id: key, reviewId: key, ...reviewsData[key] }`: the spread comes
*after* the decoration, so an `id`/`reviewId` field present in the stored
record overrides the storage key. -/
def decorateReview (key : String) (v : StoredReview) : ListedReview :=
  { id := (v.storedId).getD key,
    reviewId := (v.storedReviewId).getD key,
    itemId := v.itemId,
    rating := v.rating,
    createdAt := v.createdAt }

/-- `b.createdAt || 0`: an absent `createdAt` sorts as `0`. -/
def effectiveCreatedAt (r : ListedReview) : ℤ := (r.createdAt).getD 0

/-- The comparator `(a, b) => (b.createdAt || 0) - (a.createdAt || 0)`:
descending order of effective `createdAt`. -/
def createdDesc (a b : ListedReview) : Prop :=
  effectiveCreatedAt b ≤ effectiveCreatedAt a

instance : DecidableRel createdDesc := fun a b =>
  inferInstanceAs (Decidable (effectiveCreatedAt b ≤ effectiveCreatedAt a))

instance : IsTotal ListedReview createdDesc :=
  ⟨fun a b => le_total (effectiveCreatedAt b) (effectiveCreatedAt a)⟩

instance : IsTrans ListedReview createdDesc :=
  ⟨fun _ _ _ hab hbc => le_trans hbc hab⟩

/-- `getReviews()`: decorate each stored record with its key and sort by
`createdAt` descending. -/
def getReviews (stored : List (String × StoredReview)) : List ListedReview :=
  ((stored.map (fun kv => decorateReview kv.1 kv.2)).insertionSort createdDesc)

/-! ## Blob-store deletion (`storage.ts`) -/

/-- The regex `/\/o\/(.+)/` over a character list: scanning left to right,
a match needs the literal `/o/` followed by at least one character, and the
greedy `(.+)` captures everything after that first viable occurrence. -/
def findOCapture : List Char → Option (List Char)
  | '/' :: 'o' :: '/' :: c :: rest => some (c :: rest)
  | _ :: cs => findOCapture cs
  | [] => none

/-- The regex `/\/o\/(.+)/` applied to the URL-decoded pathname: the text
after the first occurrence of `/o/` that is followed by at least one
character; `none` when the pattern does not match. -/
def findOSegment (decodedPath : String) : Option String :=
  (findOCapture decodedPath.toList).map (fun cs => String.mk cs)

inductive ImgErr where
  | invalidStorageUrl
  deriving Repr, DecidableEq

/-- `deleteImage(url)`, modelled on the URL-decoded pathname of `url`.
When the `/o/` pattern matches, the storage object at the captured path is
deleted (the returned string).  When it does not match, the code throws
`new Error("Invalid storage URL")`; the surrounding `catch` logs the error
and **re-throws it** (`throw error`), so the failure propagates to the
caller and no storage delete is issued. -/
def deleteImage (decodedPath : String) : Except ImgErr String :=
  match findOSegment decodedPath with
  | some storagePath => .ok storagePath
  | none => .error .invalidStorageUrl

end AdminBay

namespace AdminBay

/-! ## Theorems -/

/-- C5: if the `reviewId` passed to `handleDeleteReview` occurs nowhere in
the loaded review set, the operation fails with the `Review not found`
error.  In `handleDeleteReview` this throw happens before any database
call, so the error result carries no state: neither the reviews collection
nor any product record is written. -/
theorem C5_absent_review_aborts_without_writes
    (now : ℤ) (st : DashState) (rid : String)
    (habs : ∀ r ∈ st.reviews, r.id ≠ rid) :
    deleteReviewStep now st rid = Except.error DelErr.reviewNotFound := by
  have hfind : st.reviews.find? (fun r => r.id == rid) = none := by
    rw [List.find?_eq_none]
    intro r hr
    simpa using habs r hr
  simp [deleteReviewStep, hfind]

/-- Witness for C5 at a concrete state: deleting the unknown id `"zz"` from
a one-review state aborts with `reviewNotFound`. -/
theorem C5_absent_review_aborts_without_writes_witness :
    deleteReviewStep 0
      ⟨[⟨"p1", some "p1", 4, 2, 0⟩], [⟨"r2", "p1", 3⟩]⟩ "zz" =
      Except.error DelErr.reviewNotFound :=
  C5_absent_review_aborts_without_writes 0 _ "zz" (by decide)

/-- C3 is false on the code: for a review whose `itemId` matches no
product, `handleDeleteReview` throws `Product not found for this review`
*before* `firestoreService.deleteReview` is called, so the review is NOT
removed and nothing is signalled as a recoverable orphan condition.  Here:
one orphan review with `itemId = "p404"` and no products at all — the run
produces the error, not a success state. -/
theorem C3_counterexample_orphan_review_not_deleted :
    deleteReviewStep 0 ⟨[], [⟨"r1", "p404", 4⟩]⟩ "r1" =
      Except.error DelErr.productNotFound ∧
    (deleteReviewStep 0 ⟨[], [⟨"r1", "p404", 4⟩]⟩ "r1").isOk = false :=
  ⟨rfl, rfl⟩

/-- C3 (amended): if the review is found but its `itemId` matches no
product's `itemId` field and no product's `id` field, the operation fails
with the `Product not found` error and performs no writes at all — in
particular the review itself is NOT removed (the throw precedes the
`deleteReview` call). -/
theorem C3_orphan_review_aborts_before_any_write
    (now : ℤ) (st : DashState) (rid : String) (r : Review)
    (hfind : st.reviews.find? (fun x => x.id == rid) = some r)
    (hown : findOwner st.products r.itemId = none) :
    deleteReviewStep now st rid = Except.error DelErr.productNotFound := by
  simp [deleteReviewStep, hfind, hown]

/-- Witness for the amended C3 at a concrete state. -/
theorem C3_orphan_review_aborts_before_any_write_witness :
    deleteReviewStep 5 ⟨[⟨"pX", some "pX", 4, 2, 0⟩], [⟨"r9", "p404", 4⟩]⟩
      "r9" = Except.error DelErr.productNotFound :=
  C3_orphan_review_aborts_before_any_write 5 _ "r9" ⟨"r9", "p404", 4⟩
    (by decide) (by decide)

/-- C9 is false on the code: for the decoded pathname `"/foo/bar"`, which
contains no `/o/` segment, `deleteImage` does not return normally — the
`Invalid storage URL` error is logged by the `catch` block and then
re-thrown (`throw error`), so the call raises.  (No storage delete is
issued, which is the only part of the claim the code satisfies.) -/
theorem C9_counterexample_invalid_url_raises :
    deleteImage "/foo/bar" = Except.error ImgErr.invalidStorageUrl ∧
    (deleteImage "/foo/bar").isOk = false :=
  ⟨rfl, rfl⟩

/-- C9 (amended): for every input pathname without a `/o/` segment match,
no storage delete is issued and the `Invalid storage URL` error is logged
and re-raised to the caller (rather than being silently swallowed). -/
theorem C9_invalid_url_logged_and_reraised
    (decodedPath : String) (hno : findOSegment decodedPath = none) :
    deleteImage decodedPath = Except.error ImgErr.invalidStorageUrl := by
  simp [deleteImage, hno]

/-- Witness for the amended C9 at a concrete URL pathname. -/
theorem C9_invalid_url_logged_and_reraised_witness :
    deleteImage "/images/logo.png" = Except.error ImgErr.invalidStorageUrl :=
  C9_invalid_url_logged_and_reraised "/images/logo.png" (by decide)

/-- C4: the dual-key owner lookup
`products.find(p => p.itemId === review.itemId || p.id === review.itemId)`
locates a product whenever some product's `itemId` field equals the
review's foreign key, and whenever some product's `id` field equals it; and
any product it returns matched on the `itemId` field or, failing that
(`||` evaluates the `itemId` comparison first), on the `id` field. -/
theorem C4_dual_key_lookup_resolves_both_fields
    (ps : List Product) (x : String) :
    ((∃ p ∈ ps, p.itemId = some x) → (findOwner ps x).isSome) ∧
    ((∃ p ∈ ps, p.id = x) → (findOwner ps x).isSome) ∧
    (∀ q, findOwner ps x = some q →
      q.itemId = some x ∨ (q.itemId ≠ some x ∧ q.id = x)) := by
  refine ⟨?_, ?_, ?_⟩
  · rintro ⟨p, hp, hitem⟩
    rw [findOwner, List.find?_isSome]
    exact ⟨p, hp, by simp [hitem]⟩
  · rintro ⟨p, hp, hid⟩
    rw [findOwner, List.find?_isSome]
    exact ⟨p, hp, by simp [hid]⟩
  · intro q hq
    have hpred := List.find?_some hq
    simp only [Bool.or_eq_true, beq_iff_eq] at hpred
    by_cases hitem : q.itemId = some x
    · exact Or.inl hitem
    · rcases hpred with h | h
      · exact absurd h hitem
      · exact Or.inr ⟨hitem, h⟩

/-- Witness for C4: a product found through its `itemId` field, a product
found through its `id` field, and the disjunction for a returned product. -/
theorem C4_dual_key_lookup_resolves_both_fields_witness :
    (findOwner [⟨"pid1", some "X", 4, 1, 0⟩] "X").isSome ∧
    (findOwner [⟨"Y", none, 4, 1, 0⟩] "Y").isSome ∧
    ((⟨"Y", none, 4, 1, 0⟩ : Product).itemId = some "Y" ∨
      ((⟨"Y", none, 4, 1, 0⟩ : Product).itemId ≠ some "Y" ∧
        (⟨"Y", none, 4, 1, 0⟩ : Product).id = "Y")) :=
  ⟨(C4_dual_key_lookup_resolves_both_fields [⟨"pid1", some "X", 4, 1, 0⟩]
      "X").1 ⟨⟨"pid1", some "X", 4, 1, 0⟩, by decide, rfl⟩,
   (C4_dual_key_lookup_resolves_both_fields [⟨"Y", none, 4, 1, 0⟩]
      "Y").2.1 ⟨⟨"Y", none, 4, 1, 0⟩, by decide, rfl⟩,
   (C4_dual_key_lookup_resolves_both_fields [⟨"Y", none, 4, 1, 0⟩]
      "Y").2.2 ⟨"Y", none, 4, 1, 0⟩ (by decide)⟩

/-- After writing the node at `id`, reading `id` back yields the written
value (for both the overwrite branch and the create branch of `dbSet`). -/
theorem dbGet_dbSet_self (db : Db) (id : String) (v : Obj) :
    dbGet (dbSet db id v) id = some v := by
  unfold dbSet
  split
  · rename_i hsome
    induction db with
    | nil => simp at hsome
    | cons kv tl ih =>
      rcases hb : (kv.1 == id) with _ | _
      · have htl : (tl.find? (fun kv' => kv'.1 == id)).isSome := by
          rwa [List.find?_cons_of_neg _ (by simp [hb])] at hsome
        simp only [List.map_cons, hb, if_neg (by simp [hb] : ¬ (kv.1 == id) = true)]
        rw [dbGet, List.find?_cons_of_neg _ (by simp [hb])]
        exact ih htl
      · simp only [List.map_cons, if_pos hb]
        rw [dbGet, List.find?_cons_of_pos _ (by simp)]
        rfl
  · rename_i hnone
    induction db with
    | nil => simp [dbGet]
    | cons kv tl ih =>
      rcases hb : (kv.1 == id) with _ | _
      · have htl : ¬ (tl.find? (fun kv' => kv'.1 == id)).isSome = true := by
          intro hs
          refine hnone ?_
          rwa [List.find?_cons_of_neg _ (by simp [hb])]
        rw [List.cons_append, dbGet, List.find?_cons_of_neg _ (by simp [hb])]
        exact ih htl
      · have hhead : (kv :: tl).find? (fun kv' => kv'.1 == id) = some kv :=
          List.find?_cons_of_pos _ hb
        exact absurd (by simp [hhead]) hnone

/-- C7 is false on the code: `updateReview` performs no existence check at
all — it directly issues `update(reviewRef, {...data, updatedAt})`, which
creates the node when the id is absent.  Here: updating the absent id
`"r1"` in an empty reviews collection succeeds and writes a record at
`"r1"` (so the operation neither fails nor leaves the store untouched). -/
theorem C7_counterexample_updateReview_writes_at_absent_id :
    dbGet ([] : Db) "r1" = none ∧
    (dbGet (updateReview ([] : Db) "r1" [("comment", Val.str "hi")] 7)
      "r1").isSome = true := by
  exact ⟨rfl, rfl⟩

/-- C7 (amended): `updateProduct` and `updateLearningCard` read the record
first and fail with `NotFound` (performing no write) when no record exists
at the id; `updateReview`, by contrast, never checks and always writes — a
read of the updated id afterwards succeeds even when the id was absent. -/
theorem C7_update_absent_product_card_fail_review_writes
    (db : Db) (id uuid rid : String) (data : Obj) (now : ℤ) :
    (dbGet db id = none →
      updateProduct db id data now = Except.error RepoErr.notFound) ∧
    (dbGet db uuid = none →
      updateLearningCard db uuid data = Except.error RepoErr.notFound) ∧
    (dbGet (updateReview db rid data now) rid).isSome = true := by
  refine ⟨?_, ?_, ?_⟩
  · intro h
    simp [updateProduct, h]
  · intro h
    simp [updateLearningCard, h]
  · rw [updateReview, dbGet_dbSet_self]
    rfl

/-- Witness for the amended C7: all three conjuncts at a concrete store
(`"a"` and `"b"` absent from the empty store, `"c"` updated into it). -/
theorem C7_update_absent_product_card_fail_review_writes_witness :
    (updateProduct ([] : Db) "a" [("name", Val.str "x")] 3 =
      Except.error RepoErr.notFound) ∧
    (updateLearningCard ([] : Db) "b" [("title", Val.str "y")] =
      Except.error RepoErr.notFound) ∧
    (dbGet (updateReview ([] : Db) "c" [("comment", Val.str "z")] 3)
      "c").isSome = true :=
  ⟨(C7_update_absent_product_card_fail_review_writes [] "a" "b" "c"
      [("name", Val.str "x")] 3).1 rfl,
   (C7_update_absent_product_card_fail_review_writes [] "a" "b" "c"
      [("title", Val.str "y")] 3).2.1 rfl,
   (C7_update_absent_product_card_fail_review_writes [] "a" "b" "c"
      [("comment", Val.str "z")] 3).2.2⟩

/-- The code's rounding (`parseFloat(x.toFixed(1))`, sign stripped before
the tie is resolved) is exactly the round-half-away-from-zero rule the
specification names. -/
theorem roundTenths_eq_spec (q : ℚ) :
    roundTenths q = specRoundHalfAwayTenths q := rfl

/-- C1: when the single-review deletion succeeds on a state whose product
list is `[P]`, the review found for the requested id resolves to `P` by
the dual-key match, and the values written back are
`review_count = max 0 (P.review_count − 1)` and `rating = 0` when the new
count is `0`, otherwise
`(P.rating·P.review_count − r.rating) / newCount` rounded to exactly one
decimal digit with round-half-away-from-zero — ECMA-262 `toFixed` strips
the sign before resolving ties, so this is precisely what
`parseFloat(((newTotal)/(newCount)).toFixed(1))` computes.  The review is
removed from the review set. -/
theorem C1_delete_review_decrement_and_round
    (now : ℤ) (P : Product) (rs : List Review) (rid : String) (r : Review)
    (st' : DashState)
    (hfind : rs.find? (fun x => x.id == rid) = some r)
    (hok : deleteReviewStep now ⟨[P], rs⟩ rid = Except.ok st') :
    (P.itemId = some r.itemId ∨ P.id = r.itemId) ∧
    ∃ P', st'.products = [P'] ∧
      P'.review_count = max 0 (P.review_count - 1) ∧
      P'.rating = (if 0 < max 0 (P.review_count - 1) then
          specRoundHalfAwayTenths
            ((P.rating * (P.review_count : ℚ) - r.rating) /
              ((max 0 (P.review_count - 1) : ℤ) : ℚ))
        else 0) ∧
      st'.reviews = rs.filter (fun x => !(x.id == rid)) := by
  by_cases hp : (P.itemId == some r.itemId || P.id == r.itemId) = true
  · have hown : findOwner [P] r.itemId = some P :=
      List.find?_cons_of_pos _ hp
    simp only [deleteReviewStep, hfind, hown, Except.ok.injEq] at hok
    subst hok
    refine ⟨by simpa using hp,
      ⟨{ P with review_count := max 0 (P.review_count - 1),
                rating := if 0 < max 0 (P.review_count - 1) then
                    roundTenths ((P.rating * (P.review_count : ℚ) - r.rating) /
                      ((max 0 (P.review_count - 1) : ℤ) : ℚ))
                  else 0,
                updatedAt := now }, ?_, rfl, rfl, rfl⟩⟩
    simp
  · have hown : findOwner [P] r.itemId = none := by
      have h1 := List.find?_cons_of_neg
        (p := fun q : Product => q.itemId == some r.itemId || q.id == r.itemId)
        [] hp
      simpa [findOwner] using h1
    simp only [deleteReviewStep, hfind, hown] at hok
    exact Except.noConfusion hok

/-- Witness for C1: the spec's own scenario.  Product
`{rating: 4.0, review_count: 2}`, reviews `r1` (rating 5) and `r2`
(rating 3); deleting `r1` writes back `review_count = 1` and
`rating = 3.0`. -/
theorem C1_delete_review_decrement_and_round_witness :
    ((⟨"p1", some "p1", 4, 2, 0⟩ : Product).itemId = some "p1" ∨
      (⟨"p1", some "p1", 4, 2, 0⟩ : Product).id = "p1") ∧
    ∃ P', (⟨[⟨"p1", some "p1", 3, 1, 99⟩], [⟨"r2", "p1", 3⟩]⟩ :
        DashState).products = [P'] ∧
      P'.review_count =
        max 0 ((⟨"p1", some "p1", 4, 2, 0⟩ : Product).review_count - 1) ∧
      P'.rating = (if 0 < max 0
          ((⟨"p1", some "p1", 4, 2, 0⟩ : Product).review_count - 1) then
          specRoundHalfAwayTenths
            (((⟨"p1", some "p1", 4, 2, 0⟩ : Product).rating *
              (((⟨"p1", some "p1", 4, 2, 0⟩ : Product).review_count : ℤ) : ℚ) -
              (⟨"r1", "p1", 5⟩ : Review).rating) /
              ((max 0 ((⟨"p1", some "p1", 4, 2, 0⟩ :
                Product).review_count - 1) : ℤ) : ℚ))
        else 0) ∧
      (⟨[⟨"p1", some "p1", 3, 1, 99⟩], [⟨"r2", "p1", 3⟩]⟩ :
        DashState).reviews =
        [⟨"r1", "p1", 5⟩, ⟨"r2", "p1", 3⟩].filter
          (fun x => !(x.id == "r1")) :=
  C1_delete_review_decrement_and_round 99 ⟨"p1", some "p1", 4, 2, 0⟩
    [⟨"r1", "p1", 5⟩, ⟨"r2", "p1", 3⟩] "r1" ⟨"r1", "p1", 5⟩
    ⟨[⟨"p1", some "p1", 3, 1, 99⟩], [⟨"r2", "p1", 3⟩]⟩ rfl
    (by simp only [deleteReviewStep, findOwner]
        norm_num [List.find?, roundTenths]
        decide)

/-- A successful `deleteReviewStep` requires the review to have been found
in the loaded review set. -/
theorem deleteStep_ok_find (now : ℤ) (st : DashState) (rid : String)
    (st' : DashState) (hok : deleteReviewStep now st rid = Except.ok st') :
    ∃ r, st.reviews.find? (fun x => x.id == rid) = some r := by
  cases h : st.reviews.find? (fun x => x.id == rid) with
  | none =>
    unfold deleteReviewStep at hok
    rw [h] at hok
    exact Except.noConfusion
      (show Except.error DelErr.reviewNotFound = Except.ok st' from hok)
  | some r => exact ⟨r, rfl⟩

/-- Full characterisation of a successful `deleteReviewStep` on a
single-product state: the product matched the dual-key lookup, its written
fields are the decrement/recompute formula, and exactly the reviews with
the requested id are filtered out. -/
theorem deleteStep_singleton_ok (now : ℤ) (P : Product) (rs : List Review)
    (rid : String) (r : Review) (st' : DashState)
    (hfind : rs.find? (fun x => x.id == rid) = some r)
    (hok : deleteReviewStep now ⟨[P], rs⟩ rid = Except.ok st') :
    (P.itemId == some r.itemId || P.id == r.itemId) = true ∧
    st'.products = [{ P with
      review_count := max 0 (P.review_count - 1),
      rating := if 0 < max 0 (P.review_count - 1) then
          roundTenths ((P.rating * (P.review_count : ℚ) - r.rating) /
            ((max 0 (P.review_count - 1) : ℤ) : ℚ))
        else 0,
      updatedAt := now }] ∧
    st'.reviews = rs.filter (fun x => !(x.id == rid)) := by
  by_cases hp : (P.itemId == some r.itemId || P.id == r.itemId) = true
  · have hown : findOwner [P] r.itemId = some P :=
      List.find?_cons_of_pos _ hp
    simp only [deleteReviewStep, hfind, hown, Except.ok.injEq] at hok
    subst hok
    exact ⟨hp, by simp, rfl⟩
  · have hown : findOwner [P] r.itemId = none := by
      have h1 := List.find?_cons_of_neg
        (p := fun q : Product => q.itemId == some r.itemId || q.id == r.itemId)
        [] hp
      simpa [findOwner] using h1
    simp only [deleteReviewStep, hfind, hown] at hok
    exact Except.noConfusion hok

/-- Filtering out the id of a review found in a list whose ids are distinct
removes exactly one element. -/
theorem filter_out_found_length (rs : List Review) (rid : String) (r : Review)
    (hnd : (rs.map Review.id).Nodup)
    (hfind : rs.find? (fun x => x.id == rid) = some r) :
    (rs.filter (fun x => !(x.id == rid))).length = rs.length - 1 := by
  induction rs with
  | nil => simp at hfind
  | cons a tl ih =>
    have hnd' : (tl.map Review.id).Nodup := (List.nodup_cons.mp (by simpa using hnd)).2
    have hhead : a.id ∉ tl.map Review.id := (List.nodup_cons.mp (by simpa using hnd)).1
    rcases hb : (a.id == rid) with _ | _
    · have hfind' : tl.find? (fun x => x.id == rid) = some r := by
        rwa [List.find?_cons_of_neg _ (by simp [hb])] at hfind
      have hmem : r ∈ tl := List.mem_of_find?_eq_some hfind'
      have hlen : 1 ≤ tl.length := List.length_pos.mpr (List.ne_nil_of_mem hmem)
      rw [List.filter_cons]
      simp only [hb, Bool.not_false, if_pos]
      rw [List.length_cons, List.length_cons, ih hnd' hfind']
      omega
    · have ha : a.id = rid := by simpa using hb
      have hkeep : ∀ x ∈ tl, (!(x.id == rid)) = true := by
        intro x hx
        have hne : x.id ≠ rid := by
          intro hc
          exact hhead (ha ▸ hc ▸ List.mem_map_of_mem Review.id hx)
        simp [hne]
      rw [List.filter_cons]
      have hcond : ¬((!(a.id == rid)) = true) := by simp [hb]
      rw [if_neg hcond]
      rw [List.filter_eq_self.mpr hkeep]
      simp

/-- One successful deletion on a single-product state whose `review_count`
equals the number of loaded reviews preserves that property (and keeps the
review ids distinct). -/
theorem deleteStep_count_invariant (now : ℤ) (st st' : DashState)
    (P : Product) (rid : String)
    (hps : st.products = [P])
    (hnd : (st.reviews.map Review.id).Nodup)
    (hcnt : P.review_count = (st.reviews.length : ℤ))
    (hok : deleteReviewStep now st rid = Except.ok st') :
    ∃ P', st'.products = [P'] ∧ (st'.reviews.map Review.id).Nodup ∧
      P'.review_count = (st'.reviews.length : ℤ) := by
  cases st with
  | mk ps rs =>
    dsimp only at hps hnd hcnt
    subst hps
    obtain ⟨r, hfind⟩ := deleteStep_ok_find now ⟨[P], rs⟩ rid st' hok
    obtain ⟨hp, hprod, hrev⟩ :=
      deleteStep_singleton_ok now P rs rid r st' hfind hok
    have hmem : r ∈ rs := List.mem_of_find?_eq_some hfind
    have hlen : 1 ≤ rs.length := List.length_pos.mpr (List.ne_nil_of_mem hmem)
    have hflen : (rs.filter (fun x => !(x.id == rid))).length = rs.length - 1 :=
      filter_out_found_length rs rid r hnd hfind
    refine ⟨_, hprod, ?_, ?_⟩
    · rw [hrev]
      exact List.Nodup.sublist (List.Sublist.map _ (List.filter_sublist _)) hnd
    · rw [hrev, hflen]
      show max 0 (P.review_count - 1) = ((rs.length - 1 : ℕ) : ℤ)
      rw [hcnt]
      have h0 : (0 : ℤ) ≤ (rs.length : ℤ) - 1 := by omega
      rw [max_eq_right h0]
      omega

/-- Any successful sequence of sequential deletions preserves the
count-tracking invariant on a single-product state. -/
theorem deleteMany_count_invariant (now : ℤ) (ids : List String) :
    ∀ (st st' : DashState) (P : Product),
      st.products = [P] → (st.reviews.map Review.id).Nodup →
      P.review_count = (st.reviews.length : ℤ) →
      deleteMany now st ids = Except.ok st' →
      ∃ P', st'.products = [P'] ∧ (st'.reviews.map Review.id).Nodup ∧
        P'.review_count = (st'.reviews.length : ℤ) := by
  induction ids with
  | nil =>
    intro st st' P hps hnd hcnt hok
    have hst : st = st' :=
      Except.ok.inj (show Except.ok st = Except.ok st' from hok)
    subst hst
    exact ⟨P, hps, hnd, hcnt⟩
  | cons i rest ih =>
    intro st st' P hps hnd hcnt hok
    cases hstep : deleteReviewStep now st i with
    | error e =>
      rw [deleteMany, List.foldlM_cons, hstep] at hok
      exact Except.noConfusion (show Except.error e = Except.ok st' from hok)
    | ok st₁ =>
      rw [deleteMany, List.foldlM_cons, hstep] at hok
      have hok' : deleteMany now st₁ rest = Except.ok st' := hok
      obtain ⟨P₁, h1, h2, h3⟩ :=
        deleteStep_count_invariant now st st₁ P i hps hnd hcnt hstep
      exact ih st₁ st' P₁ h1 h2 h3 hok'

/-- C2 (amended): `review_count` does track the number of remaining
reviews — for any single-product state with distinct review ids whose
count initially equals the number of loaded reviews, every successful
sequence of sequential deletions keeps `review_count` equal to the number
of remaining reviews — and the spec's two-review scenario ends at
`{review_count: 0, rating: 0}` exactly as claimed.  The *rating* half of
the invariant is what fails in general (see the counterexample): the code
recomputes from the rounded stored rating, not from the review set. -/
theorem C2_count_tracked_and_two_review_scenario :
    (∀ (now : ℤ) (ids : List String) (st st' : DashState) (P : Product),
      st.products = [P] → (st.reviews.map Review.id).Nodup →
      P.review_count = (st.reviews.length : ℤ) →
      deleteMany now st ids = Except.ok st' →
      ∃ P', st'.products = [P'] ∧
        P'.review_count = (st'.reviews.length : ℤ)) ∧
    deleteMany 7 ⟨[⟨"p1", some "p1", 4, 2, 0⟩],
        [⟨"r1", "p1", 5⟩, ⟨"r2", "p1", 3⟩]⟩ ["r1", "r2"] =
      Except.ok ⟨[⟨"p1", some "p1", 0, 0, 7⟩], []⟩ := by
  constructor
  · intro now ids st st' P hps hnd hcnt hok
    obtain ⟨P', h1, _, h3⟩ :=
      deleteMany_count_invariant now ids st st' P hps hnd hcnt hok
    exact ⟨P', h1, h3⟩
  · have s1 : deleteReviewStep 7 ⟨[⟨"p1", some "p1", 4, 2, 0⟩],
        [⟨"r1", "p1", 5⟩, ⟨"r2", "p1", 3⟩]⟩ "r1" =
        Except.ok ⟨[⟨"p1", some "p1", 3, 1, 7⟩], [⟨"r2", "p1", 3⟩]⟩ := by
      simp only [deleteReviewStep, findOwner]
      norm_num [List.find?, roundTenths]
      decide
    have s2 : deleteReviewStep 7 ⟨[⟨"p1", some "p1", 3, 1, 7⟩],
        [⟨"r2", "p1", 3⟩]⟩ "r2" =
        Except.ok ⟨[⟨"p1", some "p1", 0, 0, 7⟩], []⟩ := by
      simp only [deleteReviewStep, findOwner]
      norm_num [List.find?, roundTenths]
    have s2' : deleteMany 7 ⟨[⟨"p1", some "p1", 3, 1, 7⟩],
        [⟨"r2", "p1", 3⟩]⟩ ["r2"] =
        Except.ok ⟨[⟨"p1", some "p1", 0, 0, 7⟩], []⟩ := by
      rw [deleteMany, List.foldlM_cons, s2]
      rfl
    rw [deleteMany, List.foldlM_cons, s1]
    exact s2'

/-- Witness for C2 at a concrete run: starting from the consistent
single-product state of the spec scenario and deleting `"r1"`, the
resulting count equals the number of remaining reviews. -/
theorem C2_count_tracked_and_two_review_scenario_witness :
    ∃ P', (⟨[⟨"p1", some "p1", 3, 1, 7⟩], [⟨"r2", "p1", 3⟩]⟩ :
        DashState).products = [P'] ∧
      P'.review_count =
        (((⟨[⟨"p1", some "p1", 3, 1, 7⟩], [⟨"r2", "p1", 3⟩]⟩ :
          DashState).reviews.length : ℕ) : ℤ) :=
  C2_count_tracked_and_two_review_scenario.1 7 ["r1"]
    ⟨[⟨"p1", some "p1", 4, 2, 0⟩], [⟨"r1", "p1", 5⟩, ⟨"r2", "p1", 3⟩]⟩
    ⟨[⟨"p1", some "p1", 3, 1, 7⟩], [⟨"r2", "p1", 3⟩]⟩
    ⟨"p1", some "p1", 4, 2, 0⟩ rfl (by decide) (by decide)
    (by have s1 : deleteReviewStep 7 ⟨[⟨"p1", some "p1", 4, 2, 0⟩],
          [⟨"r1", "p1", 5⟩, ⟨"r2", "p1", 3⟩]⟩ "r1" =
          Except.ok ⟨[⟨"p1", some "p1", 3, 1, 7⟩], [⟨"r2", "p1", 3⟩]⟩ := by
          simp only [deleteReviewStep, findOwner]
          norm_num [List.find?, roundTenths]
          decide
        rw [deleteMany, List.foldlM_cons, s1]
        rfl)

/-- C2 is false on the code for the rating half of the invariant: on a
17-review product whose stored aggregates are consistent
(`review_count = 17`, `rating = round(76/17, 1) = 4.5`), deleting one
5-star review through the service leaves `rating = 4.5` (the code
recomputes from the *rounded* stored rating: `(4.5·17 − 5)/16 = 4.46875`,
which rounds to `4.5`), while the rounded mean of the 16 remaining reviews
is `round(71/16, 1) = 4.4`.  All doubles involved are exact, so the
JavaScript run agrees with this rational computation. -/
theorem C2_counterexample_rating_drifts_from_true_mean :
    ((⟨"p1", some "p1", 9/2, 17, 0⟩ : Product).review_count =
        (rs17.length : ℤ) ∧
      (⟨"p1", some "p1", 9/2, 17, 0⟩ : Product).rating =
        roundTenths (sumRatings rs17 / (rs17.length : ℚ))) ∧
    deleteMany 0 ⟨[⟨"p1", some "p1", 9/2, 17, 0⟩], rs17⟩ ["a1"] =
      Except.ok ⟨[⟨"p1", some "p1", 9/2, 16, 0⟩], rs17.tail⟩ ∧
    roundTenths (sumRatings rs17.tail / (rs17.tail.length : ℚ)) = 22/5 ∧
    (9/2 : ℚ) ≠ 22/5 := by
  refine ⟨⟨by decide, ?_⟩, ?_, ?_, by norm_num⟩
  · norm_num [sumRatings, rs17, roundTenths]
  · have s1 : deleteReviewStep 0 ⟨[⟨"p1", some "p1", 9/2, 17, 0⟩], rs17⟩
        "a1" = Except.ok ⟨[⟨"p1", some "p1", 9/2, 16, 0⟩], rs17.tail⟩ := by
      simp only [deleteReviewStep, findOwner, rs17]
      norm_num [List.find?, roundTenths]
      decide
    rw [deleteMany, List.foldlM_cons, s1]
    rfl
  · norm_num [sumRatings, rs17, roundTenths]

/-- C6 is false on the code: `handleBulkDelete` runs
`Promise.all(selectedReviews.map(id => onDelete(id)))`, so every
`handleDeleteReview` reads the same pre-bulk snapshot (the React closure
over `products`/`reviews`).  On the spec scenario — product
`{rating: 4, review_count: 2}` with reviews `r1` (5) and `r2` (3) —
bulk-deleting both writes `review_count = 1` (both concurrent deletions
compute `2 − 1` from the stale snapshot; one decrement is lost, whichever
write lands last), while the sequential fold ends at
`{review_count: 0, rating: 0}`. -/
theorem C6_counterexample_bulk_stale_loses_decrement :
    bulkDeleteStale 0 ⟨[⟨"p1", some "p1", 4, 2, 0⟩],
        [⟨"r1", "p1", 5⟩, ⟨"r2", "p1", 3⟩]⟩ ["r1", "r2"] =
      ⟨[⟨"p1", some "p1", 5, 1, 0⟩], []⟩ ∧
    deleteMany 0 ⟨[⟨"p1", some "p1", 4, 2, 0⟩],
        [⟨"r1", "p1", 5⟩, ⟨"r2", "p1", 3⟩]⟩ ["r1", "r2"] =
      Except.ok ⟨[⟨"p1", some "p1", 0, 0, 0⟩], []⟩ ∧
    (⟨[⟨"p1", some "p1", 5, 1, 0⟩], []⟩ : DashState) ≠
      ⟨[⟨"p1", some "p1", 0, 0, 0⟩], []⟩ := by
  refine ⟨?_, ?_, by decide⟩
  · have t1 : staleUpdateFor ⟨[⟨"p1", some "p1", 4, 2, 0⟩],
        [⟨"r1", "p1", 5⟩, ⟨"r2", "p1", 3⟩]⟩ "r1" = some ("p1", 1, 3) := by
      simp only [staleUpdateFor, findOwner]
      norm_num [List.find?, roundTenths]
    have hf : List.find? (fun r => r.id == "r2")
        [(⟨"r1", "p1", 5⟩ : Review), ⟨"r2", "p1", 3⟩] =
        some ⟨"r2", "p1", 3⟩ := by decide
    have t2 : staleUpdateFor ⟨[⟨"p1", some "p1", 4, 2, 0⟩],
        [⟨"r1", "p1", 5⟩, ⟨"r2", "p1", 3⟩]⟩ "r2" = some ("p1", 1, 5) := by
      simp only [staleUpdateFor, findOwner, hf]
      norm_num [List.find?, roundTenths]
    simp [bulkDeleteStale, t1, t2]
  · have s1 : deleteReviewStep 0 ⟨[⟨"p1", some "p1", 4, 2, 0⟩],
        [⟨"r1", "p1", 5⟩, ⟨"r2", "p1", 3⟩]⟩ "r1" =
        Except.ok ⟨[⟨"p1", some "p1", 3, 1, 0⟩], [⟨"r2", "p1", 3⟩]⟩ := by
      simp only [deleteReviewStep, findOwner]
      norm_num [List.find?, roundTenths]
      decide
    have s2 : deleteReviewStep 0 ⟨[⟨"p1", some "p1", 3, 1, 0⟩],
        [⟨"r2", "p1", 3⟩]⟩ "r2" =
        Except.ok ⟨[⟨"p1", some "p1", 0, 0, 0⟩], []⟩ := by
      simp only [deleteReviewStep, findOwner]
      norm_num [List.find?, roundTenths]
    have s2' : deleteMany 0 ⟨[⟨"p1", some "p1", 3, 1, 0⟩],
        [⟨"r2", "p1", 3⟩]⟩ ["r2"] =
        Except.ok ⟨[⟨"p1", some "p1", 0, 0, 0⟩], []⟩ := by
      rw [deleteMany, List.foldlM_cons, s2]
      rfl
    rw [deleteMany, List.foldlM_cons, s1]
    exact s2'

/-- C6 (amended): bulk deletion does apply the single-review algorithm once
per selected review, but concurrently over one stale snapshot, not
sequentially over the latest state: every per-review product update is
computed from the pre-bulk state.  For a single-product state with two
distinct reviews of that product, bulk-deleting both removes both reviews
but writes `review_count = max 0 (count − 1)` — a single decrement — so the
result is not the fold of sequential single deletions. -/
theorem C6_bulk_concurrent_stale_single_decrement
    (now : ℤ) (P : Product) (r₁ r₂ : Review)
    (hne : r₁.id ≠ r₂.id)
    (h₁ : (P.itemId == some r₁.itemId || P.id == r₁.itemId) = true)
    (h₂ : (P.itemId == some r₂.itemId || P.id == r₂.itemId) = true) :
    ∃ P',
      (bulkDeleteStale now ⟨[P], [r₁, r₂]⟩ [r₁.id, r₂.id]).products = [P'] ∧
      P'.review_count = max 0 (P.review_count - 1) ∧
      (bulkDeleteStale now ⟨[P], [r₁, r₂]⟩ [r₁.id, r₂.id]).reviews = [] := by
  have hne' : (r₁.id == r₂.id) = false := by simp [hne]
  have hf₁ : List.find? (fun r => r.id == r₁.id) [r₁, r₂] = some r₁ :=
    List.find?_cons_of_pos _ (by simp)
  have hf₂ : List.find? (fun r => r.id == r₂.id) [r₁, r₂] = some r₂ := by
    rw [List.find?_cons_of_neg _ (by simp [hne'])]
    exact List.find?_cons_of_pos _ (by simp)
  have ho₁ : findOwner [P] r₁.itemId = some P := List.find?_cons_of_pos _ h₁
  have ho₂ : findOwner [P] r₂.itemId = some P := List.find?_cons_of_pos _ h₂
  have hs₁ : staleUpdateFor ⟨[P], [r₁, r₂]⟩ r₁.id =
      some (P.id, max 0 (P.review_count - 1),
        if 0 < max 0 (P.review_count - 1) then
          roundTenths ((P.rating * (P.review_count : ℚ) - r₁.rating) /
            ((max 0 (P.review_count - 1) : ℤ) : ℚ))
        else 0) := by
    simp only [staleUpdateFor, hf₁, ho₁]
  have hs₂ : staleUpdateFor ⟨[P], [r₁, r₂]⟩ r₂.id =
      some (P.id, max 0 (P.review_count - 1),
        if 0 < max 0 (P.review_count - 1) then
          roundTenths ((P.rating * (P.review_count : ℚ) - r₂.rating) /
            ((max 0 (P.review_count - 1) : ℤ) : ℚ))
        else 0) := by
    simp only [staleUpdateFor, hf₂, ho₂]
  refine ⟨{ P with
      review_count := max 0 (P.review_count - 1),
      rating := if 0 < max 0 (P.review_count - 1) then
          roundTenths ((P.rating * (P.review_count : ℚ) - r₂.rating) /
            ((max 0 (P.review_count - 1) : ℤ) : ℚ))
        else 0,
      updatedAt := now }, ?_, rfl, ?_⟩
  · simp only [bulkDeleteStale, List.filterMap_cons, hs₁, hs₂,
      List.filterMap_nil, List.foldl_cons, List.foldl_nil, List.map_cons,
      List.map_nil]
    simp
  · simp only [bulkDeleteStale, List.filter_cons, hs₁, hs₂]
    simp

/-- Witness for the amended C6 at the spec scenario: both reviews removed,
`review_count` written as `max 0 (2 − 1) = 1`. -/
theorem C6_bulk_concurrent_stale_single_decrement_witness :
    ∃ P',
      (bulkDeleteStale 0 ⟨[⟨"p1", some "p1", 4, 2, 0⟩],
          [⟨"r1", "p1", 5⟩, ⟨"r2", "p1", 3⟩]⟩ ["r1", "r2"]).products =
        [P'] ∧
      P'.review_count =
        max 0 ((⟨"p1", some "p1", 4, 2, 0⟩ : Product).review_count - 1) ∧
      (bulkDeleteStale 0 ⟨[⟨"p1", some "p1", 4, 2, 0⟩],
          [⟨"r1", "p1", 5⟩, ⟨"r2", "p1", 3⟩]⟩ ["r1", "r2"]).reviews = [] :=
  C6_bulk_concurrent_stale_single_decrement 0 ⟨"p1", some "p1", 4, 2, 0⟩
    ⟨"r1", "p1", 5⟩ ⟨"r2", "p1", 3⟩ (by decide) (by decide) (by decide)

/-- A `contains` test on a list with lawful boolean equality is exactly
membership. -/
theorem contains_iff_mem {α : Type} [BEq α] [LawfulBEq α] {l : List α}
    {a : α} : l.contains a = true ↔ a ∈ l := List.elem_iff

/-- In an association list with distinct keys, two members with the same
key are the same pair. -/
theorem pairFst_nodup_inj {β : Type} {l : List (String × β)}
    {a b : String × β} (hnd : (l.map Prod.fst).Nodup)
    (ha : a ∈ l) (hb : b ∈ l) (h1 : a.1 = b.1) : a = b := by
  induction l with
  | nil => cases ha
  | cons x tl ih =>
    rw [List.map_cons, List.nodup_cons] at hnd
    obtain ⟨hx, htl⟩ := hnd
    rcases List.mem_cons.mp ha with rfl | ha'
    · rcases List.mem_cons.mp hb with rfl | hb'
      · rfl
      · exact absurd (by rw [h1]; exact List.mem_map_of_mem Prod.fst hb') hx
    · rcases List.mem_cons.mp hb with rfl | hb'
      · exact absurd (by rw [← h1]; exact List.mem_map_of_mem Prod.fst ha') hx
      · exact ih htl ha' hb'

/-- In an entry list with distinct keys, `find?` on a key returns exactly
the member carrying that key. -/
theorem find?_entry_of_mem_nodup {es : List (String × Bool)}
    {e : String × Bool} {uuid : String}
    (hnd : (es.map Prod.fst).Nodup) (he : e ∈ es) (hk : e.1 = uuid) :
    es.find? (fun x => x.1 == uuid) = some e := by
  induction es with
  | nil => cases he
  | cons x tl ih =>
    rw [List.map_cons, List.nodup_cons] at hnd
    obtain ⟨hx, htl⟩ := hnd
    rcases List.mem_cons.mp he with rfl | he'
    · exact List.find?_cons_of_pos _ (by simp [hk])
    · have hxk : ¬ (x.1 == uuid) = true := by
        simp only [beq_iff_eq]
        intro hc
        exact hx (by rw [hc, ← hk]; exact List.mem_map_of_mem Prod.fst he')
      rw [List.find?_cons_of_neg (p := fun y : String × Bool => y.1 == uuid)
        _ hxk]
      exact ih htl he'

/-- With distinct keys, the truthiness test evaluates to the value of the
member entry carrying the key. -/
theorem hasBookmark_eq_entry {es : List (String × Bool)} {e : String × Bool}
    {uuid : String} (hnd : (es.map Prod.fst).Nodup) (he : e ∈ es)
    (hk : e.1 = uuid) : hasBookmark es uuid = e.2 := by
  unfold hasBookmark
  rw [find?_entry_of_mem_nodup hnd he hk]

/-- Membership in the batched `updates` object: exactly the pairs
`(userId, uuid)` for users whose entry list bookmarks `uuid`. -/
theorem mem_buildCleanupUpdates
    {saved : List (String × List (String × Bool))} {uuid : String}
    {x : String × String} :
    x ∈ buildCleanupUpdates saved uuid ↔
      x.2 = uuid ∧ ∃ es, (x.1, es) ∈ saved ∧ hasBookmark es uuid = true := by
  unfold buildCleanupUpdates
  rw [List.mem_filterMap]
  constructor
  · rintro ⟨ue, hue, hf⟩
    by_cases hbm : hasBookmark ue.2 uuid = true
    · rw [if_pos hbm] at hf
      have h := Option.some_inj.mp hf
      subst h
      exact ⟨rfl, ue.2, by simpa using hue, hbm⟩
    · rw [if_neg hbm] at hf
      exact Option.noConfusion hf
  · rintro ⟨hx2, es, hmem, hbm⟩
    refine ⟨(x.1, es), hmem, ?_⟩
    rw [if_pos hbm, ← hx2]

/-- For any entry of a user present in the side table (all keys distinct),
the batched update object lists the pair `(userId, entryKey)` exactly when
the entry is the bookmark of the deleted card. -/
theorem contains_cleanup_eq
    {saved : List (String × List (String × Bool))} {uuid u : String}
    {es : List (String × Bool)} {e : String × Bool}
    (hndS : (saved.map Prod.fst).Nodup)
    (hmem : (u, es) ∈ saved)
    (hndE : (es.map Prod.fst).Nodup)
    (he : e ∈ es) :
    (buildCleanupUpdates saved uuid).contains (u, e.1) =
      (e.1 == uuid && e.2) := by
  by_cases hk : e.1 = uuid
  · have hbm : hasBookmark es uuid = e.2 := hasBookmark_eq_entry hndE he hk
    cases he2 : e.2 with
    | false =>
      cases hc : (buildCleanupUpdates saved uuid).contains (u, e.1) with
      | false => simp [hk, he2]
      | true =>
        exfalso
        obtain ⟨_, es', hmem', hbm'⟩ :=
          mem_buildCleanupUpdates.mp (contains_iff_mem.mp hc)
        have heq : ((u : String), es') = (u, es) :=
          pairFst_nodup_inj hndS hmem' hmem rfl
        obtain rfl : es' = es := congrArg Prod.snd heq
        rw [hbm, he2] at hbm'
        exact Bool.noConfusion hbm'
    | true =>
      have hin : ((u, e.1) : String × String) ∈ buildCleanupUpdates saved uuid :=
        mem_buildCleanupUpdates.mpr ⟨hk, es, hmem, by rw [hbm, he2]⟩
      rw [contains_iff_mem.mpr hin, hk]
      simp
  · have hne : (e.1 == uuid) = false := by simp [hk]
    cases hc : (buildCleanupUpdates saved uuid).contains (u, e.1) with
    | false => simp [hne]
    | true =>
      obtain ⟨hx2, _, _, _⟩ :=
        mem_buildCleanupUpdates.mp (contains_iff_mem.mp hc)
      exact absurd hx2 hk

/-- The batched update object has exactly one removal per user that
bookmarks the deleted uuid. -/
theorem buildCleanup_length (saved : List (String × List (String × Bool)))
    (uuid : String) :
    (buildCleanupUpdates saved uuid).length =
      (saved.filter (fun ue => hasBookmark ue.2 uuid)).length := by
  induction saved with
  | nil => rfl
  | cons ue tl ih =>
    simp only [buildCleanupUpdates] at ih ⊢
    rcases hb : hasBookmark ue.2 uuid with _ | _
    · simp [List.filterMap_cons, List.filter_cons, hb, ih]
    · simp [List.filterMap_cons, List.filter_cons, hb, ih]

/-- C8: `deleteLearningCard` removes the card record and then, in a single
batched multi-path update assembled by `cleanupSavedCards`, removes from
`user_saved_cards` exactly the bookmark entries `{userId}/{uuid}` whose
value is `true` — one per bookmarking user (the length equation) — leaving
every other entry of every user untouched.  Hypotheses: storage keys are
distinct (as they are in the real key-value store). -/
theorem C8_delete_card_removes_exact_bookmark_fanout
    (st : HubState) (uuid : String)
    (hndS : (st.saved.map Prod.fst).Nodup)
    (hndE : ∀ ue ∈ st.saved, (ue.2.map Prod.fst).Nodup) :
    (deleteLearningCard st uuid).cards =
      st.cards.filter (fun c => !(c.1 == uuid)) ∧
    (deleteLearningCard st uuid).saved =
      st.saved.map (fun ue =>
        (ue.1, ue.2.filter (fun e => !(e.1 == uuid && e.2)))) ∧
    (buildCleanupUpdates st.saved uuid).length =
      (st.saved.filter (fun ue => hasBookmark ue.2 uuid)).length := by
  refine ⟨rfl, ?_, buildCleanup_length st.saved uuid⟩
  show applyRemovals st.saved (buildCleanupUpdates st.saved uuid) = _
  unfold applyRemovals
  rw [List.map_eq_map_iff]
  intro ue hue
  have h2 : ue.2.filter
      (fun e => !((buildCleanupUpdates st.saved uuid).contains (ue.1, e.1))) =
      ue.2.filter (fun e => !(e.1 == uuid && e.2)) := by
    apply List.filter_congr
    intro e he
    rw [contains_cleanup_eq hndS (by simpa using hue) (hndE ue hue) he]
  rw [h2]

/-- Witness for C8: a concrete side table where `"c1"` is bookmarked by
`u1` and `u2`, `u3` bookmarks only `"c2"`, and `u4` holds a `false` entry
for `"c1"`: deleting card `"c1"` removes exactly the two `true` bookmark
entries, and the batch has length 2. -/
theorem C8_delete_card_removes_exact_bookmark_fanout_witness :
    (deleteLearningCard ⟨[("c1", []), ("c2", [])],
        [("u1", [("c1", true)]),
         ("u2", [("c1", true), ("c2", true)]),
         ("u3", [("c2", true)]),
         ("u4", [("c1", false)])]⟩ "c1").cards =
      [("c1", ([] : Obj)), ("c2", [])].filter (fun c => !(c.1 == "c1")) ∧
    (deleteLearningCard ⟨[("c1", []), ("c2", [])],
        [("u1", [("c1", true)]),
         ("u2", [("c1", true), ("c2", true)]),
         ("u3", [("c2", true)]),
         ("u4", [("c1", false)])]⟩ "c1").saved =
      [("u1", [("c1", true)]),
       ("u2", [("c1", true), ("c2", true)]),
       ("u3", [("c2", true)]),
       ("u4", [("c1", false)])].map (fun ue =>
        (ue.1, ue.2.filter (fun e => !(e.1 == "c1" && e.2)))) ∧
    (buildCleanupUpdates
        [("u1", [("c1", true)]),
         ("u2", [("c1", true), ("c2", true)]),
         ("u3", [("c2", true)]),
         ("u4", [("c1", false)])] "c1").length =
      ([("u1", [("c1", true)]),
        ("u2", [("c1", true), ("c2", true)]),
        ("u3", [("c2", true)]),
        ("u4", [("c1", false)])].filter
          (fun ue => hasBookmark ue.2 "c1")).length :=
  C8_delete_card_removes_exact_bookmark_fanout
    ⟨[("c1", []), ("c2", [])],
     [("u1", [("c1", true)]),
      ("u2", [("c1", true), ("c2", true)]),
      ("u3", [("c2", true)]),
      ("u4", [("c1", false)])]⟩ "c1" (by decide) (by decide)

/-- C10 is false on the code: the decoration
`{ id: key, reviewId: key, ...reviewsData[key] }` spreads the stored record
*after* the key fields, so a stored `id` field overrides the storage key.
For a store holding one review under key `"k1"` whose record carries
`id: "other"`, the returned entry's `id` is `"other"`, not `"k1"`. -/
theorem C10_counterexample_stored_id_overrides_key :
    getReviews [("k1", ⟨some "other", none, "p1", 5, none⟩)] =
      [⟨"other", "k1", "p1", 5, none⟩] ∧
    ("other" : String) ≠ "k1" := by
  exact ⟨rfl, by decide⟩

/-- C10 (amended): `getReviews` returns exactly the stored records, each
decorated by `decorateReview` — which uses the storage key for `id` and
`reviewId` only as a default, an `id`/`reviewId` field inside the stored
record overriding it — sorted by `createdAt` descending with an absent
`createdAt` treated as `0`. -/
theorem C10_reviews_sorted_desc_key_only_default
    (stored : List (String × StoredReview)) :
    (getReviews stored).Perm
      (stored.map (fun kv => decorateReview kv.1 kv.2)) ∧
    (getReviews stored).Sorted createdDesc ∧
    ∀ e ∈ getReviews stored, ∃ kv, kv ∈ stored ∧
      e = decorateReview kv.1 kv.2 ∧
      e.id = (kv.2.storedId).getD kv.1 ∧
      e.reviewId = (kv.2.storedReviewId).getD kv.1 := by
  refine ⟨List.perm_insertionSort _ _, List.sorted_insertionSort _ _, ?_⟩
  intro e he
  have hm : e ∈ stored.map (fun kv => decorateReview kv.1 kv.2) :=
    (List.perm_insertionSort createdDesc _).mem_iff.mp he
  rcases List.mem_map.mp hm with ⟨kv, hkv, heq⟩
  exact ⟨kv, hkv, heq.symm, by rw [← heq]; rfl, by rw [← heq]; rfl⟩

/-- Witness for the amended C10: a two-review store with `createdAt` 10 and
20; the entry listed first is the newer one (`"k2"`), and its `id` and
`reviewId` default to its storage key. -/
theorem C10_reviews_sorted_desc_key_only_default_witness :
    ∃ kv, kv ∈ [("k1", (⟨none, none, "p1", 5, some 10⟩ : StoredReview)),
        ("k2", ⟨none, none, "p2", 4, some 20⟩)] ∧
      (⟨"k2", "k2", "p2", 4, some 20⟩ : ListedReview) =
        decorateReview kv.1 kv.2 ∧
      (⟨"k2", "k2", "p2", 4, some 20⟩ : ListedReview).id =
        (kv.2.storedId).getD kv.1 ∧
      (⟨"k2", "k2", "p2", 4, some 20⟩ : ListedReview).reviewId =
        (kv.2.storedReviewId).getD kv.1 :=
  (C10_reviews_sorted_desc_key_only_default
      [("k1", ⟨none, none, "p1", 5, some 10⟩),
       ("k2", ⟨none, none, "p2", 4, some 20⟩)]).2.2
    ⟨"k2", "k2", "p2", 4, some 20⟩ (by decide)

end AdminBay

namespace AdminBay

example : roundTenths (3/4) = 8/10 := by norm_num [roundTenths]
example : roundTenths (-3/4) = -8/10 := by norm_num [roundTenths]
example : roundTenths (-74/100) = -7/10 := by norm_num [roundTenths]
example : specRoundHalfAwayTenths (-3/4) = -8/10 := by
  norm_num [specRoundHalfAwayTenths]

end AdminBay
